import Mathlib

/-!
# Verification of the CEE690 parallel-reduction and NetCDF spatial-statistics scripts

Shallow embedding of the repository's scripts:

* `serial.py` / `threads.py` / `mpi4py_calculate_mean.py` — the partitioned
  mean-reduction pattern over a dense 2D array;
* `mpi4py_scatter.py` / `mpi4py_gather.py` — contiguous-chunk scatter and
  rank-ordered gather;
* `refactor/example.py` and `refactor/spatialstats.py` — the NetCDF spatial
  statistics utility (loop-based and vectorized variants), its CLI control
  flow, its save step and its visualize step;
* `pyomp_race_condition.py` / `pyomp_long.py` — the unguarded shared-counter
  increment versus critical-section accumulation, modelled by an explicit
  interleaving semantics.

Numbers are embedded as exact rationals `ℚ`; Python's machine floats are
treated as exact arithmetic, except that numpy's not-a-number outcome is
modelled explicitly (`NpF.nan`) where a claim depends on it.  Fallible Python
code (division by zero raises `ZeroDivisionError`) is embedded in `Option`.
-/

namespace CEE690

open Finset

/-! ## Partitioned mean reduction (serial.py, threads.py, mpi4py_calculate_mean.py)

A dense 2D array of shape `rows × cols` is embedded as a function
`data : ℕ → ℕ → ℚ` read on `[0, rows) × [0, cols)`. -/

/-- Embeds `calculate_mean` of `serial.py`: the double loop accumulates
`val += data[i,j]` and `count += 1` over all `i < rows`, `j < cols`, and
returns `val / count`. -/
def calculate_mean (data : ℕ → ℕ → ℚ) (rows cols : ℕ) : ℚ :=
  (∑ i ∈ range rows, ∑ j ∈ range cols, data i j) /
    ((∑ _i ∈ range rows, ∑ _j ∈ range cols, (1 : ℕ) : ℕ) : ℚ)

/-- Embeds `calculate_mean_thread` of `threads.py`: the partial
`(val, count)` accumulated over the row block `[imin, imax)` and all columns
`j < cols`. -/
def calculate_mean_thread (data : ℕ → ℕ → ℚ) (cols imin imax : ℕ) :
    ℚ × ℕ :=
  (∑ i ∈ Ico imin imax, ∑ j ∈ range cols, data i j,
   ∑ _i ∈ Ico imin imax, ∑ _j ∈ range cols, 1)

/-- Embeds the thread-spawning loop of `threads.py`: thread `i` (for
`i < n_threads`) is given the row block `[i*chunk, (i+1)*chunk)` with
`chunk = rows / n_threads` (Python `rows // n_threads`), and its partial
result is stored in slot `i` of the results list. -/
def thread_results (data : ℕ → ℕ → ℚ) (rows cols n_threads : ℕ) :
    List (ℚ × ℕ) :=
  (List.range n_threads).map fun i =>
    calculate_mean_thread data cols (i * (rows / n_threads))
      ((i + 1) * (rows / n_threads))

/-- Embeds the combine step of `threads.py`
(`sum(r[0] for r in results) / sum(r[1] for r in results)`). -/
def threads_mean (data : ℕ → ℕ → ℚ) (rows cols n_threads : ℕ) : ℚ :=
  ((thread_results data rows cols n_threads).map Prod.fst).sum /
    (((thread_results data rows cols n_threads).map Prod.snd).sum : ℕ)

/-- Embeds `calculate_mean_collective` of `mpi4py_calculate_mean.py`: rank
`r` receives the scattered row block `[r*(rows/size), (r+1)*(rows/size))`,
computes `local_val = np.sum(local_data)` and `local_count =
local_data.size = (rows/size)*cols`, the partials are sum-reduced to root,
and root reports `total_val / total_count`. -/
def calculate_mean_collective (data : ℕ → ℕ → ℚ) (rows cols size : ℕ) :
    ℚ :=
  (∑ r ∈ range size,
      ∑ i ∈ Ico (r * (rows / size)) ((r + 1) * (rows / size)),
        ∑ j ∈ range cols, data i j) /
    ((∑ _r ∈ range size, (rows / size) * cols : ℕ) : ℚ)

/-- Summing a function over `W` consecutive blocks `[i*c, (i+1)*c)` equals
summing it over `[0, W*c)`. -/
theorem sum_Ico_blocks {M : Type} [AddCommMonoid M] (f : ℕ → M)
    (W c : ℕ) :
    ∑ i ∈ range W, ∑ t ∈ Ico (i * c) ((i + 1) * c), f t =
      ∑ t ∈ range (W * c), f t := by
  induction W with
  | zero => simp
  | succ n ih =>
    rw [Finset.sum_range_succ, ih, Nat.succ_mul, Finset.range_eq_Ico]
    exact Finset.sum_Ico_consecutive f (Nat.zero_le (n * c))
      (Nat.le_add_right (n * c) c)

/-- Summing a mapped `List.range` is the corresponding `Finset.range` sum. -/
theorem list_range_map_sum {M : Type} [AddCommMonoid M] (f : ℕ → M)
    (n : ℕ) : ((List.range n).map f).sum = ∑ i ∈ range n, f i := by
  induction n with
  | zero => simp
  | succ n ih =>
    rw [List.range_succ, List.map_append, List.sum_append,
      Finset.sum_range_succ, ih]
    simp

/-- C1.  For every 2D array and every worker/thread count that evenly
divides its row count, partitioning the array into contiguous row blocks,
computing a (sum, count) partial per block, summing the partials and
dividing total sum by total count (as done by `threads.py` and by
`mpi4py_calculate_mean.py`) yields exactly the mean obtained by summing
every element directly and dividing by the element count (`serial.py`),
under the exact arithmetic of the embedding. -/
theorem partitioned_mean_eq_serial_mean (data : ℕ → ℕ → ℚ)
    (rows cols W : ℕ) (hW : W ∣ rows) :
    threads_mean data rows cols W = calculate_mean data rows cols ∧
    calculate_mean_collective data rows cols W =
      calculate_mean data rows cols := by
  have hWc : W * (rows / W) = rows := Nat.mul_div_cancel' hW
  have hnum :
      ∑ i ∈ range W,
          ∑ t ∈ Ico (i * (rows / W)) ((i + 1) * (rows / W)),
            ∑ j ∈ range cols, data t j =
        ∑ i ∈ range rows, ∑ j ∈ range cols, data i j := by
    rw [sum_Ico_blocks, hWc]
  constructor
  · unfold threads_mean thread_results calculate_mean_thread calculate_mean
    rw [List.map_map, List.map_map]
    simp only [Function.comp_def]
    rw [list_range_map_sum, list_range_map_sum, hnum,
      sum_Ico_blocks (fun _t => ∑ _j ∈ range cols, (1 : ℕ)), hWc]
  · unfold calculate_mean_collective calculate_mean
    rw [hnum]
    have hden : (∑ _r ∈ range W, (rows / W) * cols) =
        ∑ _i ∈ range rows, ∑ _j ∈ range cols, (1 : ℕ) := by
      simp only [Finset.sum_const, Finset.card_range, smul_eq_mul, mul_one]
      rw [← Nat.mul_assoc, hWc]
    rw [hden]

/-- Witness for C1 at a concrete array (4 × 2, entries `i + 2j`) with 2
workers. -/
theorem partitioned_mean_eq_serial_mean_witness :
    (2 ∣ 4) ∧
      (threads_mean (fun i j => (i : ℚ) + 2 * j) 4 2 2 =
          calculate_mean (fun i j => (i : ℚ) + 2 * j) 4 2 ∧
        calculate_mean_collective (fun i j => (i : ℚ) + 2 * j) 4 2 2 =
          calculate_mean (fun i j => (i : ℚ) + 2 * j) 4 2) :=
  ⟨by decide,
    partitioned_mean_eq_serial_mean (fun i j => (i : ℚ) + 2 * j) 4 2 2
      (by decide)⟩

/-! ## Scatter and gather (mpi4py_scatter.py, mpi4py_gather.py)

`comm.Scatter(send, recv, root=0)` splits the root's buffer of length
`size * k` into `size` contiguous chunks of length `k`, assigned in rank
order; `comm.Gather(send, recv, root=0)` concatenates the ranks' buffers
in rank order at the root. -/

/-- Embeds the chunking performed by `comm.Scatter` in `mpi4py_scatter.py`
(`send_data = np.arange(size*5)`, each rank receives 5 elements): rank `i`
of `W` receives elements `[i*k, (i+1)*k)` of the source list. -/
def scatterChunks {α : Type} (k : ℕ) : ℕ → List α → List (List α)
  | 0, _ => []
  | W + 1, xs => xs.take k :: scatterChunks k W (xs.drop k)

/-- Embeds the concatenation performed at root by `comm.Gather` in
`mpi4py_gather.py`: the received chunks, in rank order, laid side by side
into one buffer. -/
def gatherChunks {α : Type} (chunks : List (List α)) : List α :=
  chunks.flatten

/-- C5.  For every source array whose length is `worker_count` times the
per-worker chunk size, scattering it into contiguous rank-ordered chunks
and gathering the chunks back in rank order reproduces the original array
exactly. -/
theorem gather_scatter_roundtrip {α : Type} (xs : List α) (W k : ℕ)
    (h : xs.length = W * k) :
    gatherChunks (scatterChunks k W xs) = xs := by
  induction W generalizing xs with
  | zero =>
    have : xs = [] := List.eq_nil_of_length_eq_zero (by simpa using h)
    simp [this, scatterChunks, gatherChunks]
  | succ n ih =>
    have hdrop : (xs.drop k).length = n * k := by
      simp only [List.length_drop, h, Nat.succ_mul]
      omega
    simp only [scatterChunks, gatherChunks, List.flatten_cons]
    rw [show (scatterChunks k n (xs.drop k)).flatten =
        gatherChunks (scatterChunks k n (xs.drop k)) from rfl,
      ih (xs.drop k) hdrop, List.take_append_drop]

/-- Witness for C5 on the concrete list `[0, 1, 2, 3, 4, 5]` with 3
workers and chunk size 2. -/
theorem gather_scatter_roundtrip_witness :
    ([0, 1, 2, 3, 4, 5] : List ℕ).length = 3 * 2 ∧
      gatherChunks (scatterChunks 2 3 ([0, 1, 2, 3, 4, 5] : List ℕ)) =
        [0, 1, 2, 3, 4, 5] :=
  ⟨by decide, gather_scatter_roundtrip [0, 1, 2, 3, 4, 5] 3 2 (by decide)⟩

/-! ## Thread work partition (threads.py)

`threads.py` fixes `data = np.random.randn(5000, 5000)` and
`n_threads = 4`; the spawning loop hands thread `i` the row range
`[i*chunk, (i+1)*chunk)` with `chunk = data.shape[0] // n_threads`, and
`calculate_mean_thread` stores its partial with `results[index] = (val,
count)`. -/

/-- Row count of the array created in `threads.py` (`np.random.randn(5000,
5000)`). -/
def threads_data_rows : ℕ := 5000

/-- Thread count fixed in `threads.py` (`n_threads = 4`). -/
def threads_n_threads : ℕ := 4

/-- The value `chunk = data.shape[0] // n_threads` in `threads.py`. -/
def threads_chunk : ℕ := threads_data_rows / threads_n_threads

/-- The set of row indices iterated by thread `i` in `threads.py`
(`range(imin, imax)` with `imin = i*chunk`, `imax = (i+1)*chunk`). -/
def threadRows (i : ℕ) : Finset ℕ :=
  Finset.Ico (i * threads_chunk) ((i + 1) * threads_chunk)

/-- Embeds the store `results[index] = (val, count)` at the end of
`calculate_mean_thread`. -/
def thread_write {α : Type} (results : List α) (index : ℕ) (v : α) :
    List α :=
  results.set index v

/-- Consecutive blocks `[i*c, (i+1)*c)` for `i < W` tile `[0, W*c)`. -/
theorem biUnion_Ico_blocks (W c : ℕ) :
    Finset.biUnion (range W)
        (fun i => Finset.Ico (i * c) ((i + 1) * c)) =
      range (W * c) := by
  induction W with
  | zero => simp
  | succ n ih =>
    rw [Finset.range_succ, Finset.biUnion_insert, ih, Nat.succ_mul,
      Finset.range_eq_Ico, Finset.union_comm]
    exact Finset.Ico_union_Ico_eq_Ico (Nat.zero_le (n * c))
      (Nat.le_add_right (n * c) c)

/-- C7.  In `threads.py`, the row ranges assigned to the 4 threads are
pairwise disjoint, each is contiguous (closed under intermediate values),
together they cover every row index `< 5000` of the array, and a thread's
final store touches only its own slot of the results list. -/
theorem thread_partition_sound :
    (∀ i j : ℕ, i ≠ j → Disjoint (threadRows i) (threadRows j)) ∧
    (∀ i x y z : ℕ, x ∈ threadRows i → z ∈ threadRows i → x ≤ y →
      y ≤ z → y ∈ threadRows i) ∧
    Finset.biUnion (range threads_n_threads) threadRows =
      range threads_data_rows ∧
    (∀ (α : Type) (results : List α) (index : ℕ) (v : α) (j : ℕ),
      j ≠ index →
        (thread_write results index v)[j]? = results[j]?) := by
  refine ⟨?_, ?_, ?_, ?_⟩
  · intro i j hij
    rw [Finset.disjoint_left]
    intro x hx hx'
    rw [threadRows, Finset.mem_Ico] at hx hx'
    rcases Nat.lt_or_ge i j with hlt | hge
    · have : (i + 1) * threads_chunk ≤ j * threads_chunk :=
        Nat.mul_le_mul_right threads_chunk hlt
      omega
    · have hlt' : j < i := Nat.lt_of_le_of_ne hge (Ne.symm hij)
      have : (j + 1) * threads_chunk ≤ i * threads_chunk :=
        Nat.mul_le_mul_right threads_chunk hlt'
      omega
  · intro i x y z hx hz hxy hyz
    rw [threadRows, Finset.mem_Ico] at hx hz ⊢
    omega
  · have h1 : Finset.biUnion (range threads_n_threads) threadRows =
        range (threads_n_threads * threads_chunk) :=
      biUnion_Ico_blocks threads_n_threads threads_chunk
    rw [h1]
    norm_num [threads_n_threads, threads_chunk, threads_data_rows]
  · intro α results index v j hj
    unfold thread_write
    exact List.getElem?_set_ne (Ne.symm hj)

/-- Witness for C7: disjointness of threads 0 and 1, contiguity inside
thread 0's range, and slot isolation on a concrete list. -/
theorem thread_partition_sound_witness :
    Disjoint (threadRows 0) (threadRows 1) ∧ 1 ∈ threadRows 0 ∧
      (thread_write ([10, 20] : List ℕ) 0 99)[1]? =
        ([10, 20] : List ℕ)[1]? :=
  ⟨thread_partition_sound.1 0 1 (by decide),
   thread_partition_sound.2.1 0 0 1 2 (by decide) (by decide) (by decide)
     (by decide),
   thread_partition_sound.2.2.2 ℕ [10, 20] 0 99 1 (by decide)⟩

/-! ## NetCDF output model (spatialstats.py save_netcdf, example.py
output_data_to_netcdf)

A written NetCDF file is modelled by its structural content: the list of
`createDimension` calls (name, size) and the list of `createVariable`
calls (name, dtype string, dimension tuple, stored payload).  The `f4`
(float32) narrowing of the stored payload is not modelled: the payload is
kept as the exact rational series handed to the variable. -/

/-- Structural model of a written NetCDF file. -/
structure NCFile where
  dims : List (String × ℕ)
  vars : List (String × String × List String × List ℚ)
  deriving DecidableEq

/-- Embeds `SpatialAnalyzer.save_netcdf` of `spatialstats.py`: creates one
dimension `t` sized `self.means.shape[0]`, then the two `f4` variables
`temporal_spatial_mean` and `temporal_spatial_variance` over `('t',)`,
filled with the computed series. -/
def save_netcdf (means variances : List ℚ) : NCFile :=
  { dims := [("t", means.length)],
    vars := [("temporal_spatial_mean", "f4", ["t"], means),
             ("temporal_spatial_variance", "f4", ["t"], variances)] }

/-- Embeds `output_data_to_netcdf` of `example.py`: despite taking an
`output_file` parameter, it opens the hardcoded path `out.nc`
(`nc.Dataset('out.nc','w')`) and writes the same structure as
`save_netcdf`.  Returns the path actually opened together with the file
content. -/
def output_data_to_netcdf (output_file : String)
    (temporal_spatial_mean temporal_spatial_variance : List ℚ) :
    String × NCFile :=
  ("out.nc",
    { dims := [("t", temporal_spatial_mean.length)],
      vars := [("temporal_spatial_mean", "f4", ["t"],
                 temporal_spatial_mean),
               ("temporal_spatial_variance", "f4", ["t"],
                 temporal_spatial_variance)] })

/-- C6.  For every computed mean series of length `n`, the save step
produces a file with exactly one dimension, named `t`, of size `n`, and
exactly two `f4` variables `temporal_spatial_mean` and
`temporal_spatial_variance`, each indexed by `t` and holding the computed
mean and variance series respectively; `output_data_to_netcdf` of
`example.py` writes the same structure. -/
theorem save_netcdf_structure (means variances : List ℚ) (n : ℕ)
    (h : means.length = n) :
    save_netcdf means variances =
      { dims := [("t", n)],
        vars := [("temporal_spatial_mean", "f4", ["t"], means),
                 ("temporal_spatial_variance", "f4", ["t"],
                   variances)] } ∧
    (∀ output_file : String,
      (output_data_to_netcdf output_file means variances).2 =
        save_netcdf means variances) := by
  refine ⟨?_, fun _ => rfl⟩
  rw [save_netcdf, h]

/-- Witness for C6 at the series `[1/2, 3]` and `[0, 7]` of length 2. -/
theorem save_netcdf_structure_witness :
    ([(1 : ℚ) / 2, 3].length = 2) ∧
      (save_netcdf [(1 : ℚ) / 2, 3] [0, 7] =
          { dims := [("t", 2)],
            vars := [("temporal_spatial_mean", "f4", ["t"],
                       [(1 : ℚ) / 2, 3]),
                     ("temporal_spatial_variance", "f4", ["t"],
                       [0, 7])] } ∧
        ∀ output_file : String,
          (output_data_to_netcdf output_file [(1 : ℚ) / 2, 3] [0, 7]).2 =
            save_netcdf [(1 : ℚ) / 2, 3] [0, 7]) :=
  ⟨by decide, save_netcdf_structure [(1 : ℚ) / 2, 3] [0, 7] 2 (by decide)⟩

/-- C9.  `output_data_to_netcdf` writes to the hardcoded path `out.nc`
whatever its `output_file` argument is, and two calls differing only in
`output_file` have identical file-system effects. -/
theorem output_data_to_netcdf_ignores_output_file
    (f1 f2 : String) (means variances : List ℚ) :
    (output_data_to_netcdf f1 means variances).1 = "out.nc" ∧
      output_data_to_netcdf f1 means variances =
        output_data_to_netcdf f2 means variances :=
  ⟨rfl, rfl⟩

/-! ## Spatial statistics (example.py, spatialstats.py)

A 3D array of shape `T × Y × X` (time, lat, lon) is embedded as
`data : ℕ → ℕ → ℕ → ℚ`.  Python's `ZeroDivisionError` is embedded as
`none`; numpy's quiet not-a-number outcome as `NpF.nan`. -/

/-- The time indices retained by the loop of `calculate_spatial_mean`
(`for t in range(T)` with `if (t < time_min) | (t >= time_max):
continue`), in iteration order.  The numpy slice `data[time_min:time_max]`
of `run_analysis` retains exactly the same indices in the same order. -/
def selTimes (T time_min time_max : ℕ) : List ℕ :=
  (List.range T).filter fun t => ¬(t < time_min ∨ time_max ≤ t)

/-- The latitude indices retained by the `y` loop (`if (y < lat_min) |
(y >= lat_max): continue` over `range(Y)`); also the index set of the
numpy slice `LAT_MIN:LAT_MAX` on an axis of length `Y`. -/
def selLat (Y lat_min lat_max : ℕ) : Finset ℕ :=
  (range Y).filter fun y => ¬(y < lat_min ∨ lat_max ≤ y)

/-- The longitude indices retained by the `x` loop; also the index set of
the numpy slice `LON_MIN:LON_MAX` on an axis of length `X`. -/
def selLon (X lon_min lon_max : ℕ) : Finset ℕ :=
  (range X).filter fun x => ¬(x < lon_min ∨ lon_max ≤ x)

/-- The value of `pixel_count` accumulated by the two inner loops of
`calculate_spatial_mean` / `calculate_spatial_variance` (one increment per
retained `(y, x)` pair). -/
def pixel_count (Y X lat_min lat_max lon_min lon_max : ℕ) : ℕ :=
  ∑ _y ∈ selLat Y lat_min lat_max, ∑ _x ∈ selLon X lon_min lon_max, 1

/-- The value of `total_data` accumulated by the inner loops at time `t`
(`total_data = total_data + data[t][y][x]`). -/
def total_data (data : ℕ → ℕ → ℕ → ℚ)
    (Y X lat_min lat_max lon_min lon_max t : ℕ) : ℚ :=
  ∑ y ∈ selLat Y lat_min lat_max, ∑ x ∈ selLon X lon_min lon_max,
    data t y x

/-- A Python loop that appends `f a` to an accumulator list for each `a`,
aborting the whole computation at the first iteration that raises
(embedded as `none`). -/
def loopAppend {α β : Type} (f : α → Option β) : List α → Option (List β)
  | [] => some []
  | a :: l =>
    match f a with
    | none => none
    | some b =>
      match loopAppend f l with
      | none => none
      | some bs => some (b :: bs)

/-- Embeds `calculate_spatial_mean` of `example.py`: for each retained
time step it appends `total_data / pixel_count`; the division raises
`ZeroDivisionError` (embedded as `none`) when `pixel_count` is zero. -/
def calculate_spatial_mean (data : ℕ → ℕ → ℕ → ℚ)
    (T Y X time_min time_max lat_min lat_max lon_min lon_max : ℕ) :
    Option (List ℚ) :=
  loopAppend (fun t =>
    if pixel_count Y X lat_min lat_max lon_min lon_max = 0 then none
    else some (total_data data Y X lat_min lat_max lon_min lon_max t /
      (pixel_count Y X lat_min lat_max lon_min lon_max : ℚ)))
    (selTimes T time_min time_max)

/-- Embeds `calculate_spatial_variance` of `example.py`, bug included: at
each retained time step the inner loops accumulate
`diff_squared_sum = diff_squared_sum + (diff)` - the raw deviation
`data[t][y][x] - temporal_spatial_mean[t - time_min]`, NOT its square -
and append `diff_squared_sum / pixel_count`. -/
def calculate_spatial_variance (data : ℕ → ℕ → ℕ → ℚ)
    (T Y X time_min time_max lat_min lat_max lon_min lon_max : ℕ)
    (temporal_spatial_mean : List ℚ) : Option (List ℚ) :=
  loopAppend (fun t =>
    if pixel_count Y X lat_min lat_max lon_min lon_max = 0 then none
    else some
      ((∑ y ∈ selLat Y lat_min lat_max,
          ∑ x ∈ selLon X lon_min lon_max,
            (data t y x - temporal_spatial_mean.getD (t - time_min) 0)) /
        (pixel_count Y X lat_min lat_max lon_min lon_max : ℚ)))
    (selTimes T time_min time_max)

/-- The spatial mean of the selected sub-box at time `t`, as the claims
state it: sum of the selected pixels divided by their number. -/
def spatialMean_spec (data : ℕ → ℕ → ℕ → ℚ)
    (Y X lat_min lat_max lon_min lon_max t : ℕ) : ℚ :=
  total_data data Y X lat_min lat_max lon_min lon_max t /
    (pixel_count Y X lat_min lat_max lon_min lon_max : ℚ)

/-- The spatial variance of the selected sub-box at time `t`, as the
claims state it: the mean of the squared deviations of the selected
pixels from that time step's spatial mean. -/
def spatialVariance_spec (data : ℕ → ℕ → ℕ → ℚ)
    (Y X lat_min lat_max lon_min lon_max t : ℕ) : ℚ :=
  (∑ y ∈ selLat Y lat_min lat_max, ∑ x ∈ selLon X lon_min lon_max,
      (data t y x -
        spatialMean_spec data Y X lat_min lat_max lon_min lon_max t) ^ 2) /
    (pixel_count Y X lat_min lat_max lon_min lon_max : ℚ)

/-- A numpy floating-point result: either a number or `nan`. -/
inductive NpF where
  | nan : NpF
  | val : ℚ → NpF
  deriving DecidableEq

/-- Semantics of `np.mean` over a pixel set: `nan` (with a
`RuntimeWarning`, not an exception) when the set is empty, otherwise the
exact mean. -/
def npMean (s : Finset (ℕ × ℕ)) (f : ℕ × ℕ → ℚ) : NpF :=
  if s.card = 0 then NpF.nan else NpF.val ((∑ p ∈ s, f p) / (s.card : ℚ))

/-- Semantics of `np.var` over a pixel set: `nan` when the set is empty,
otherwise the mean of the squared deviations from the mean. -/
def npVar (s : Finset (ℕ × ℕ)) (f : ℕ × ℕ → ℚ) : NpF :=
  if s.card = 0 then NpF.nan
  else NpF.val
    ((∑ p ∈ s, (f p - (∑ q ∈ s, f q) / (s.card : ℚ)) ^ 2) /
      (s.card : ℚ))

/-- Embeds `SpatialAnalyzer.run_analysis` of `spatialstats.py`: slices
`self.data[TIME_MIN:TIME_MAX, LAT_MIN:LAT_MAX, LON_MIN:LON_MAX]` (the
retained indices are `selTimes`, `selLat`, `selLon`), then takes
`np.mean(subset, axis=(1, 2))` and `np.var(subset, axis=(1, 2))`:
per retained time step, the numpy mean and variance over the selected
pixel set. -/
def run_analysis (data : ℕ → ℕ → ℕ → ℚ)
    (T Y X time_min time_max lat_min lat_max lon_min lon_max : ℕ) :
    List NpF × List NpF :=
  ((selTimes T time_min time_max).map fun t =>
      npMean (selLat Y lat_min lat_max ×ˢ selLon X lon_min lon_max)
        fun p => data t p.1 p.2,
   (selTimes T time_min time_max).map fun t =>
      npVar (selLat Y lat_min lat_max ×ˢ selLon X lon_min lon_max)
        fun p => data t p.1 p.2)

/-- C2 (code bug).  On the 1 × 1 × 2 array `[[[0, 2]]]` with the full box
selected, the per-time-step spatial variance demanded by the claim is `1`
(and the vectorized `run_analysis` returns exactly that), but `example.py`'s
`calculate_spatial_variance` - which accumulates the raw deviation instead
of its square - returns `0`: the code contradicts the claimed
postcondition (and its own accumulator name `diff_squared_sum`). -/
theorem calculate_spatial_variance_not_variance :
    calculate_spatial_mean
        (fun _ _ x => if x = 0 then (0 : ℚ) else 2) 1 1 2 0 1 0 1 0 2 =
      some [1] ∧
    calculate_spatial_variance
        (fun _ _ x => if x = 0 then (0 : ℚ) else 2) 1 1 2 0 1 0 1 0 2
        [1] =
      some [0] ∧
    spatialVariance_spec
        (fun _ _ x => if x = 0 then (0 : ℚ) else 2) 1 2 0 1 0 2 0 = 1 ∧
    (run_analysis
        (fun _ _ x => if x = 0 then (0 : ℚ) else 2)
        1 1 2 0 1 0 1 0 2).2 =
      [NpF.val 1] := by
  have h0 : selTimes 1 0 1 = [0] := by decide
  have h1 : selLat 1 0 1 = {0} := by decide
  have h2 : selLon 2 0 2 = {0, 1} := by decide
  have hne01 : (0 : ℕ) ≠ 1 := by decide
  have hpc : pixel_count 1 2 0 1 0 2 = 2 := by decide
  have ht : total_data (fun _ _ x => if x = 0 then (0 : ℚ) else 2)
      1 2 0 1 0 2 0 = 2 := by
    rw [total_data, h1, h2]
    simp only [Finset.sum_singleton, Finset.sum_pair hne01]
    norm_num
  refine ⟨?_, ?_, ?_, ?_⟩
  · rw [calculate_spatial_mean, h0]
    simp [loopAppend, hpc, ht]
  · rw [calculate_spatial_variance, h0]
    simp only [loopAppend, hpc, if_neg (by decide : ¬(2 = 0))]
    rw [h1, h2]
    simp only [Finset.sum_singleton, Finset.sum_pair hne01]
    norm_num
  · rw [spatialVariance_spec, spatialMean_spec, hpc, ht, h1, h2]
    simp only [Finset.sum_singleton, Finset.sum_pair hne01]
    norm_num
  · have hs : selLat 1 0 1 ×ˢ selLon 2 0 2 = {(0, 0), (0, 1)} := by
      decide
    have hnep : ((0, 0) : ℕ × ℕ) ≠ (0, 1) := by decide
    simp only [run_analysis]
    rw [h0, List.map_cons, List.map_nil, hs, npVar,
      Finset.card_pair hnep]
    simp only [Finset.sum_pair hnep]
    norm_num

/-- C4 (counterexample).  On a 1 × 3 × 3 constant array with the empty
latitude box `[2, 2)` and one retained time step, the loop-based
`calculate_spatial_mean` fails with a division by zero (`none`), but the
vectorized `run_analysis` does NOT fail: it returns normally with a `nan`
mean and a `nan` variance for the retained time step. -/
theorem run_analysis_empty_box_no_failure :
    calculate_spatial_mean (fun _ _ _ => (5 : ℚ)) 1 3 3 0 1 2 2 0 3 =
        none ∧
      run_analysis (fun _ _ _ => (5 : ℚ)) 1 3 3 0 1 2 2 0 3 =
        ([NpF.nan], [NpF.nan]) := by
  have h0 : selTimes 1 0 1 = [0] := by decide
  have hpc : pixel_count 3 3 2 2 0 3 = 0 := by decide
  have hs : selLat 3 2 2 ×ˢ selLon 3 0 3 = ∅ := by decide
  constructor
  · rw [calculate_spatial_mean, h0]
    simp [loopAppend, hpc]
  · rw [run_analysis, h0]
    simp [hs, npMean, npVar]

/-- C4 (amended).  Whenever the lat/lon bounds select zero pixels while at
least one time step is retained, the loop-based mean computation of
`example.py` fails with a division by zero, while the vectorized
`run_analysis` of `spatialstats.py` returns normally, producing `nan` for
every retained time step instead of raising. -/
theorem empty_bbox_divzero_loop_nan_vectorized
    (data : ℕ → ℕ → ℕ → ℚ)
    (T Y X time_min time_max lat_min lat_max lon_min lon_max : ℕ)
    (hne : selTimes T time_min time_max ≠ [])
    (hpc : pixel_count Y X lat_min lat_max lon_min lon_max = 0) :
    calculate_spatial_mean data T Y X time_min time_max lat_min lat_max
        lon_min lon_max = none ∧
    (run_analysis data T Y X time_min time_max lat_min lat_max lon_min
        lon_max).1 =
      (selTimes T time_min time_max).map (fun _ => NpF.nan) ∧
    (run_analysis data T Y X time_min time_max lat_min lat_max lon_min
        lon_max).2 =
      (selTimes T time_min time_max).map (fun _ => NpF.nan) := by
  have hcard :
      (selLat Y lat_min lat_max ×ˢ selLon X lon_min lon_max).card = 0 := by
    rw [Finset.card_product]
    have := hpc
    rw [pixel_count] at this
    simpa [Finset.sum_const, smul_eq_mul] using this
  refine ⟨?_, ?_, ?_⟩
  · rcases h : selTimes T time_min time_max with _ | ⟨a, l⟩
    · exact absurd h hne
    · simp [calculate_spatial_mean, h, loopAppend, hpc]
  · simp [run_analysis, npMean, hcard]
  · simp [run_analysis, npVar, hcard]

/-- Witness for the amended C4 at the concrete empty-box input of the
counterexample. -/
theorem empty_bbox_divzero_loop_nan_vectorized_witness :
    (selTimes 1 0 1 ≠ [] ∧ pixel_count 3 3 2 2 0 3 = 0) ∧
      (calculate_spatial_mean (fun _ _ _ => (5 : ℚ)) 1 3 3 0 1 2 2 0 3 =
          none ∧
        (run_analysis (fun _ _ _ => (5 : ℚ)) 1 3 3 0 1 2 2 0 3).1 =
          (selTimes 1 0 1).map (fun _ => NpF.nan) ∧
        (run_analysis (fun _ _ _ => (5 : ℚ)) 1 3 3 0 1 2 2 0 3).2 =
          (selTimes 1 0 1).map (fun _ => NpF.nan)) :=
  ⟨⟨by decide, by decide⟩,
    empty_bbox_divzero_loop_nan_vectorized (fun _ _ _ => (5 : ℚ))
      1 3 3 0 1 2 2 0 3 (by decide) (by decide)⟩

/-! ## Visualize step (spatialstats.py SpatialAnalyzer.visualize)

The analyzer's attributes and the observable effects of `visualize` are
modelled explicitly; the `try/except` around the plotting body means the
step never propagates an exception, so it is a total function. -/

/-- An observable side effect of a pipeline step. -/
inductive Effect where
  | printed : String → Effect
  | wrotePlot : String → Effect
  deriving DecidableEq

/-- The attributes of a `SpatialAnalyzer` instance that `visualize` reads
or could write: the configuration entries it uses, the loaded data, and
the two result attributes. -/
structure AnalyzerState where
  config_plot_file : String
  config_var_name : String
  data : ℕ → ℕ → ℕ → ℚ
  means : Option (List ℚ)
  variances : Option (List ℚ)

/-- Embeds `SpatialAnalyzer.visualize`: if `self.means is None` it prints
an error and returns; otherwise it prints, attempts the plot (the
`plot_raises` flag abstracts whether the plotting body raises; the
`except` clause catches and prints), and never changes any attribute.
Returns the (unchanged) state and the effects in order. -/
def visualize (plot_raises : Bool) (s : AnalyzerState) :
    AnalyzerState × List Effect :=
  match s.means with
  | none =>
    (s, [Effect.printed
      "Error: No analysis results to visualize. Run run_analysis() first."])
  | some _ =>
    if plot_raises then
      (s, [Effect.printed "Visualizing the data",
           Effect.printed "Error during visualization"])
    else
      (s, [Effect.printed "Visualizing the data",
           Effect.wrotePlot s.config_plot_file,
           Effect.printed ("Plot saved to " ++ s.config_plot_file)])

/-- C10.  Calling `visualize` while `means` is `None` prints exactly the
error message and returns normally: the analyzer state (config, data,
means, variances) is returned unchanged and no plot file is written,
whatever the plotting body would have done. -/
theorem visualize_before_analysis_noop (plot_raises : Bool)
    (s : AnalyzerState) (h : s.means = none) :
    visualize plot_raises s =
      (s, [Effect.printed
        "Error: No analysis results to visualize. Run run_analysis() first."]) ∧
    (visualize plot_raises s).1 = s ∧
    ∀ p : String,
      Effect.wrotePlot p ∉ (visualize plot_raises s).2 := by
  have hv : visualize plot_raises s =
      (s, [Effect.printed
        "Error: No analysis results to visualize. Run run_analysis() first."]) := by
    rw [visualize, h]
  refine ⟨hv, by rw [hv], fun p hp => ?_⟩
  rw [hv] at hp
  simp at hp

/-- Witness for C10 at a concrete pre-analysis analyzer state. -/
theorem visualize_before_analysis_noop_witness :
    (AnalyzerState.means
        ⟨"plot.png", "t2m", fun _ _ _ => 0, none, none⟩ = none) ∧
      (visualize true ⟨"plot.png", "t2m", fun _ _ _ => 0, none, none⟩ =
          (⟨"plot.png", "t2m", fun _ _ _ => 0, none, none⟩,
            [Effect.printed
              "Error: No analysis results to visualize. Run run_analysis() first."]) ∧
        (visualize true
            ⟨"plot.png", "t2m", fun _ _ _ => 0, none, none⟩).1 =
          ⟨"plot.png", "t2m", fun _ _ _ => 0, none, none⟩ ∧
        ∀ p : String,
          Effect.wrotePlot p ∉
            (visualize true
              ⟨"plot.png", "t2m", fun _ _ _ => 0, none, none⟩).2) :=
  ⟨rfl,
    visualize_before_analysis_noop true
      ⟨"plot.png", "t2m", fun _ _ _ => 0, none, none⟩ rfl⟩

/-! ## CLI control flow (spatialstats.py main)

A run of the CLI is characterised by which fallible steps would fail; the
model computes the exit status and the printed messages along `main`'s
control flow.  `sys.exit(1)` raises `SystemExit`, which the
`except Exception` handlers do not catch, so it always terminates the
process with status 1; the `except` blocks inside `visualize` and
`save_netcdf` catch the exceptions of their bodies and only print. -/

/-- Which fallible events occur in a run of the `spatialstats.py` CLI. -/
structure Scenario where
  json_given : Bool
  json_exists : Bool
  json_parses : Bool
  input_exists : Bool
  open_raises : Bool
  var_present : Bool
  read_raises : Bool
  compute_raises : Bool
  visualize_raises : Bool
  save_raises : Bool
  deriving DecidableEq

/-- The pipeline of `main`'s `try` block (`SpatialAnalyzer(config)` /
`run_analysis` / `visualize` / `save_netcdf`), returning the process exit
status and the messages printed, in order.  `_load_dataset` exits 1 on a
missing file, an exception while opening, a missing variable, or an
exception while reading; a `run_analysis` exception reaches `main`'s
`except Exception` which exits 1; `visualize` and `save_netcdf` catch
their own exceptions, print, and let the run finish with status 0. -/
def pipelineTrace (sc : Scenario) : ℕ × List String :=
  if !sc.input_exists then (1, ["Error: The file does not exist."])
  else if sc.open_raises then
    (1, ["An unexpected error occurred while loading"])
  else if !sc.var_present then (1, ["Error: Variable not found."])
  else if sc.read_raises then
    (1, ["An unexpected error occurred while loading"])
  else if sc.compute_raises then
    (1, ["Computing the statistics", "Analysis failed"])
  else
    (0, ["Computing the statistics"] ++
      (if sc.visualize_raises then
        ["Visualizing the data", "Error during visualization"]
      else
        ["Visualizing the data", "Plot saved"]) ++
      ("Saving statistics" ::
        (if sc.save_raises then ["Error while saving NetCDF"] else [])) ++
      ["Processing complete."])

/-- Embeds `main` of `spatialstats.py`: the JSON-config handling (exit 1
only when a given JSON file exists but cannot be parsed; a missing JSON
file only warns), followed by the pipeline. -/
def mainTrace (sc : Scenario) : ℕ × List String :=
  if sc.json_given then
    if sc.json_exists then
      if sc.json_parses then
        ((pipelineTrace sc).1,
          "Configuration loaded" :: (pipelineTrace sc).2)
      else (1, ["Error loading JSON config"])
    else
      ((pipelineTrace sc).1,
        "Warning: JSON file not found. Using defaults." ::
          (pipelineTrace sc).2)
  else pipelineTrace sc

/-- C3 (counterexample).  A run in which everything succeeds except that
`save_netcdf`'s body raises: the exception is caught inside `save_netcdf`
(its message is printed and `Processing complete.` still follows), and the
process exits with status 0 - not 1 as the claim requires for a raised
exception on the save step. -/
theorem save_exception_exits_zero :
    (mainTrace
        ⟨false, false, true, true, false, true, false, false, false,
          true⟩).1 = 0 ∧
      Scenario.save_raises
          ⟨false, false, true, true, false, true, false, false, false,
            true⟩ = true ∧
      "Error while saving NetCDF" ∈
        (mainTrace
          ⟨false, false, true, true, false, true, false, false, false,
            true⟩).2 ∧
      "Processing complete." ∈
        (mainTrace
          ⟨false, false, true, true, false, true, false, false, false,
            true⟩).2 := by
  refine ⟨rfl, rfl, by decide, by decide⟩

/-- C3 (amended).  The CLI exits with status 1 exactly when the input file
is missing, opening it raises, the variable is absent, reading it raises,
a supplied JSON config file exists but cannot be parsed, or the compute
step raises; exceptions raised during the visualize or save steps are
caught internally and the process exits 0. -/
theorem mainTrace_exit_one_iff (sc : Scenario) :
    (mainTrace sc).1 = 1 ↔
      ((sc.json_given = true ∧ sc.json_exists = true ∧
          sc.json_parses = false) ∨
        sc.input_exists = false ∨ sc.open_raises = true ∨
        sc.var_present = false ∨ sc.read_raises = true ∨
        sc.compute_raises = true) := by
  obtain ⟨a, b, c, d, e, f, g, h, i, j⟩ := sc
  cases a <;> cases b <;> cases c <;> cases d <;> cases e <;> cases f <;>
    cases g <;> cases h <;> cases i <;> cases j <;> decide

/-! ## Unsynchronized shared-counter increments (pyomp_race_condition.py,
pyomp_long.py)

`trigger_race_condition` runs `counter += 1` in a parallel work-shared
loop with no protection: each increment compiles to a load of the shared
counter into a thread-private register followed by a store of
register + 1, and the scheduler may interleave the two events of
different threads arbitrarily.  The guarded variants
(`calculate_mean_pyomp`'s `critical` block, or per-worker accumulation
merged once) perform each addition to the shared accumulator atomically.
A worker's program is its list of pending events; a schedule is the list
of worker indices in the order the scheduler lets them take a step. -/

/-- One event of an unguarded `counter += 1`: load the shared counter, or
store the private register + 1. -/
inductive UOp where
  | read : UOp
  | write : UOp
  deriving DecidableEq

/-- Shared-memory state of the unguarded experiment: the shared counter,
each worker's private register, and each worker's remaining events. -/
structure RaceState where
  counter : ℕ
  regs : List ℕ
  progs : List (List UOp)
  deriving DecidableEq

/-- The event list of a worker that attempts `k` unguarded increments:
`k` read/write pairs. -/
def incProg : ℕ → List UOp
  | 0 => []
  | k + 1 => UOp.read :: UOp.write :: incProg k

/-- One scheduler step: worker `w` executes its next event (a read copies
the shared counter into `w`'s register; a write stores `w`'s register + 1
into the shared counter); a worker with no events left does nothing. -/
def raceStep (s : RaceState) (w : ℕ) : RaceState :=
  match s.progs[w]? with
  | some (UOp.read :: rest) =>
    { s with regs := s.regs.set w s.counter, progs := s.progs.set w rest }
  | some (UOp.write :: rest) =>
    { s with counter := s.regs.getD w 0 + 1, progs := s.progs.set w rest }
  | _ => s

/-- Run a whole schedule from a state. -/
def raceRun (sched : List ℕ) (s : RaceState) : RaceState :=
  sched.foldl raceStep s

/-- Initial state for per-worker attempt counts `ks`: counter 0, one zero
register and one increment program per worker. -/
def raceInit (ks : List ℕ) : RaceState :=
  ⟨0, List.replicate ks.length 0, ks.map incProg⟩

/-- Every worker has executed all of its events. -/
def allDone (s : RaceState) : Bool :=
  s.progs.all List.isEmpty

/-- A schedule that lets worker `w` run `k` complete read/write pairs
back to back. -/
def pairSched (w : ℕ) : ℕ → List ℕ
  | 0 => []
  | k + 1 => w :: w :: pairSched w k

/-- A schedule that runs workers `i, i+1, ...` to completion one after
the other, worker `i + j` performing `rest[j]` increments. -/
def seqSched (i : ℕ) : List ℕ → List ℕ
  | [] => []
  | k :: rest => pairSched i k ++ seqSched (i + 1) rest

/-- Setting an index to the value it already holds is the identity. -/
theorem set_getElem?_same {α : Type} :
    ∀ (l : List α) (w : ℕ) (x : α), l[w]? = some x → l.set w x = l := by
  intro l
  induction l with
  | nil => intro w x h; simp at h
  | cons a t ih =>
    intro w x h
    cases w with
    | zero => simp at h; simp [h]
    | succ n =>
      simp only [List.getElem?_cons_succ] at h
      simp [List.set, ih n x h]

/-- Setting the element right after a prefix. -/
theorem set_append_at_length {α : Type} :
    ∀ (front : List α) (a : α) (l : List α) (b : α),
      (front ++ a :: l).set front.length b = front ++ b :: l := by
  intro front
  induction front with
  | nil => intro a l b; rfl
  | cons x t ih => intro a l b; simp [List.set, ih a l b]

/-- Reading the element right after a prefix. -/
theorem getElem?_append_at_length {α : Type} :
    ∀ (front : List α) (a : α) (l : List α),
      (front ++ a :: l)[front.length]? = some a := by
  intro front
  induction front with
  | nil => intro a l; simp
  | cons x t ih => intro a l; simpa using ih a l

/-- Running a concatenated schedule runs the parts in order. -/
theorem raceRun_append (a b : List ℕ) (s : RaceState) :
    raceRun (a ++ b) s = raceRun b (raceRun a s) := by
  simp [raceRun, List.foldl_append]

/-- Running worker `w`'s `k` read/write pairs without interruption adds
exactly `k` to the counter and empties `w`'s program. -/
theorem raceRun_pairSched (w k : ℕ) :
    ∀ s : RaceState, w < s.regs.length →
      s.progs[w]? = some (incProg k) →
    ∃ regs' : List ℕ,
      raceRun (pairSched w k) s =
        ⟨s.counter + k, regs', s.progs.set w []⟩ ∧
      regs'.length = s.regs.length := by
  induction k with
  | zero =>
    intro s _ hprog
    have hset : s.progs.set w [] = s.progs :=
      set_getElem?_same s.progs w []
        (by simpa [incProg] using hprog)
    refine ⟨s.regs, ?_, rfl⟩
    rw [raceRun, pairSched, List.foldl_nil, hset]
    cases s
    simp
  | succ k ih =>
    intro s hw hprog
    have hwp : w < s.progs.length := (List.getElem?_eq_some_iff.mp hprog).1
    have hstep1 : raceStep s w =
        { s with regs := s.regs.set w s.counter,
                 progs := s.progs.set w (UOp.write :: incProg k) } := by
      rw [raceStep, hprog]
      rfl
    have hget1 : (s.progs.set w (UOp.write :: incProg k))[w]? =
        some (UOp.write :: incProg k) :=
      List.getElem?_set_eq_of_lt _ hwp
    have hstep2 : raceStep (raceStep s w) w =
        { counter := s.counter + 1,
          regs := s.regs.set w s.counter,
          progs := s.progs.set w (incProg k) } := by
      rw [hstep1, raceStep]
      simp only [hget1]
      have hgd : (s.regs.set w s.counter)[w]? = some s.counter :=
        List.getElem?_set_eq_of_lt _ hw
      rw [List.set_set]
      simp [List.getD_eq_getElem?_getD, hgd]
    have hget2 : (s.progs.set w (incProg k))[w]? = some (incProg k) :=
      List.getElem?_set_eq_of_lt _ hwp
    have hw2 : w < (s.regs.set w s.counter).length := by
      rw [List.length_set]; exact hw
    obtain ⟨regs', hrun, hlen⟩ := ih
      ⟨s.counter + 1, s.regs.set w s.counter, s.progs.set w (incProg k)⟩
      hw2 hget2
    refine ⟨regs', ?_, by simpa using hlen⟩
    show raceRun (w :: w :: pairSched w k) s = _
    rw [raceRun, List.foldl_cons, List.foldl_cons]
    show raceRun (pairSched w k) (raceStep (raceStep s w) w) = _
    rw [hstep2, hrun]
    rw [List.set_set]
    have h3 : s.counter + 1 + k = s.counter + (k + 1) := by omega
    rw [h3]

/-- Running workers `front.length, front.length + 1, ...` to completion
one after the other adds the sum of their attempt counts to the counter
and empties their programs. -/
theorem raceRun_seqSched :
    ∀ (rest : List ℕ) (front : List (List UOp)) (s : RaceState),
      s.progs = front ++ rest.map incProg →
      front.length + rest.length ≤ s.regs.length →
      ∃ regs' : List ℕ,
        raceRun (seqSched front.length rest) s =
          ⟨s.counter + rest.sum, regs',
            front ++ List.replicate rest.length ([] : List UOp)⟩ ∧
        regs'.length = s.regs.length := by
  intro rest
  induction rest with
  | nil =>
    intro front s hp _
    refine ⟨s.regs, ?_, rfl⟩
    rw [seqSched, raceRun, List.foldl_nil]
    cases s
    simp at hp
    simp [hp]
  | cons k rest ih =>
    intro front s hp hlen
    have hprog : s.progs[front.length]? = some (incProg k) := by
      rw [hp]
      simp only [List.map_cons]
      exact getElem?_append_at_length front (incProg k)
        (rest.map incProg)
    have hw : front.length < s.regs.length := by
      simp only [List.length_cons] at hlen
      omega
    obtain ⟨regs1, hrun1, hlen1⟩ :=
      raceRun_pairSched front.length k s hw hprog
    have hp1 : (s.progs.set front.length []) =
        (front ++ [[]]) ++ rest.map incProg := by
      rw [hp]
      simp only [List.map_cons]
      rw [set_append_at_length]
      simp
    obtain ⟨regs2, hrun2, hlen2⟩ := ih (front ++ [([] : List UOp)])
      ⟨s.counter + k, regs1, s.progs.set front.length []⟩
      (by simpa using hp1)
      (by simp only [List.length_append, List.length_singleton]
          simp only [List.length_cons] at hlen
          omega)
    refine ⟨regs2, ?_, by rw [hlen2]; simpa using hlen1⟩
    rw [seqSched, raceRun_append, hrun1]
    have hfl : (front ++ [([] : List UOp)]).length = front.length + 1 := by
      simp
    rw [← hfl, hrun2]
    simp only [RaceState.mk.injEq, List.replicate_succ, List.sum_cons,
      List.length_cons, List.append_assoc, List.singleton_append]
    exact ⟨by omega, trivial, trivial⟩

/-- The first four steps of the lost-update schedule: workers 0 and 1
both read the counter at 0, then both write 1 - two attempted increments,
one surviving. -/
theorem raceRun_overlap_prefix (k0 k1 : ℕ) (rest : List ℕ) :
    raceRun [0, 1, 0, 1] (raceInit ((k0 + 1) :: (k1 + 1) :: rest)) =
      ⟨1, 0 :: 0 :: List.replicate rest.length 0,
        incProg k0 :: incProg k1 :: rest.map incProg⟩ := by
  simp [raceRun, raceStep, raceInit, incProg, List.replicate_succ,
    List.getD]

/-- There is a complete schedule of the unguarded experiment that loses
exactly one update: the final counter is the total attempted increments
minus one. -/
theorem race_lost_update (k0 k1 : ℕ) (rest : List ℕ) :
    ∃ sched : List ℕ,
      allDone (raceRun sched (raceInit ((k0 + 1) :: (k1 + 1) :: rest))) =
          true ∧
      (raceRun sched
          (raceInit ((k0 + 1) :: (k1 + 1) :: rest))).counter + 1 =
        ((k0 + 1) :: (k1 + 1) :: rest).sum := by
  refine ⟨[0, 1, 0, 1] ++ pairSched 0 k0 ++ pairSched 1 k1 ++
    seqSched 2 rest, ?_⟩
  rw [raceRun_append, raceRun_append, raceRun_append,
    raceRun_overlap_prefix]
  obtain ⟨regs1, hrun1, hlen1⟩ := raceRun_pairSched 0 k0
    ⟨1, 0 :: 0 :: List.replicate rest.length 0,
      incProg k0 :: incProg k1 :: rest.map incProg⟩
    (by simp) (by simp)
  rw [hrun1]
  simp only [List.set_cons_zero]
  obtain ⟨regs2, hrun2, hlen2⟩ := raceRun_pairSched 1 k1
    ⟨1 + k0, regs1, [] :: incProg k1 :: rest.map incProg⟩
    (by simp at hlen1 ⊢; omega) (by simp)
  rw [hrun2]
  simp only [List.set_cons_succ, List.set_cons_zero]
  obtain ⟨regs3, hrun3, hlen3⟩ := raceRun_seqSched rest
    [[], []] ⟨1 + k0 + k1, regs2, [] :: [] :: rest.map incProg⟩
    (by simp) (by simp at hlen1 hlen2 ⊢; omega)
  rw [show (2 : ℕ) = ([([] : List UOp), []] : List (List UOp)).length
    from rfl, hrun3]
  constructor
  · simp [allDone, List.all_eq_true, List.mem_replicate]
  · simp
    omega

/-- Shared state of a properly guarded variant: the shared accumulator
and, per worker, the list of pending atomic additions (an increment under
mutual exclusion is an atomic `+1`; a per-worker accumulation merged in a
`critical` block is one atomic `+local_count`). -/
structure SyncState where
  counter : ℕ
  progs : List (List ℕ)
  deriving DecidableEq

/-- One scheduler step of the guarded variant: worker `w` performs its
next addition atomically. -/
def syncStep (s : SyncState) (w : ℕ) : SyncState :=
  match s.progs[w]? with
  | some (a :: rest) => ⟨s.counter + a, s.progs.set w rest⟩
  | _ => s

/-- Run a whole schedule of the guarded variant. -/
def syncRun (sched : List ℕ) (s : SyncState) : SyncState :=
  sched.foldl syncStep s

/-- Initial guarded state: accumulator 0, given per-worker addition
lists. -/
def syncInit (progs : List (List ℕ)) : SyncState := ⟨0, progs⟩

/-- Every worker of the guarded variant has performed all its
additions. -/
def allDoneSync (s : SyncState) : Bool := s.progs.all List.isEmpty

/-- Sum of all additions still pending. -/
def remSum (s : SyncState) : ℕ := (s.progs.map List.sum).sum

/-- Replacing one worker's pending list changes the pending total by the
difference of the two lists' sums. -/
theorem sum_map_set :
    ∀ (l : List (List ℕ)) (w : ℕ) (x y : List ℕ), l[w]? = some x →
      ((l.set w y).map List.sum).sum + x.sum =
        (l.map List.sum).sum + y.sum := by
  intro l
  induction l with
  | nil => intro w x y h; simp at h
  | cons a t ih =>
    intro w x y h
    cases w with
    | zero =>
      simp only [List.getElem?_cons_zero, Option.some_inj] at h
      subst h
      simp [List.set]
      omega
    | succ n =>
      simp only [List.getElem?_cons_succ] at h
      have := ih n x y h
      simp only [List.set_cons_succ, List.map_cons, List.sum_cons]
      omega

/-- The guarded step preserves counter + pending total. -/
theorem syncStep_inv (s : SyncState) (w : ℕ) :
    (syncStep s w).counter + remSum (syncStep s w) =
      s.counter + remSum s := by
  rcases h : s.progs[w]? with _ | val
  · rw [syncStep, h]
  · rcases val with _ | ⟨a, rest⟩
    · rw [syncStep, h]
    · rw [syncStep, h]
      have := sum_map_set s.progs w (a :: rest) rest h
      simp only [remSum, List.sum_cons] at this ⊢
      omega

/-- Any guarded schedule preserves counter + pending total. -/
theorem syncRun_inv (sched : List ℕ) :
    ∀ s : SyncState,
      (syncRun sched s).counter + remSum (syncRun sched s) =
        s.counter + remSum s := by
  induction sched with
  | nil => intro s; rfl
  | cons w sched ih =>
    intro s
    rw [syncRun, List.foldl_cons]
    have h1 := ih (syncStep s w)
    have h2 := syncStep_inv s w
    rw [syncRun] at h1
    omega

/-- Every complete guarded schedule ends with the counter equal to the
total of all attempted additions, regardless of interleaving. -/
theorem sync_exact (progs : List (List ℕ)) (sched : List ℕ)
    (h : allDoneSync (syncRun sched (syncInit progs)) = true) :
    (syncRun sched (syncInit progs)).counter =
      (progs.map List.sum).sum := by
  have hrem : remSum (syncRun sched (syncInit progs)) = 0 := by
    rw [remSum]
    apply List.sum_eq_zero
    intro x hx
    rw [List.mem_map] at hx
    obtain ⟨p, hp, hpx⟩ := hx
    rw [allDoneSync, List.all_eq_true] at h
    have := h p hp
    simp [List.isEmpty_iff] at this
    rw [this] at hpx
    simpa using hpx.symm
  have hinv := syncRun_inv sched (syncInit progs)
  have h0 : (syncInit progs).counter = 0 := rfl
  have h1 : remSum (syncInit progs) = (progs.map List.sum).sum := rfl
  rw [h0, h1, hrem] at hinv
  simpa using hinv

/-- C8.  With at least two workers each attempting at least one
increment, the unguarded shared-counter experiment has a complete
schedule that terminates with the final counter strictly below the total
attempted increments (one update lost: the counter ends at the total
minus one), while every complete schedule of a variant using mutual
exclusion or per-worker accumulation terminates with the counter exactly
equal to the total. -/
theorem unguarded_loses_updates_guarded_exact (k0 k1 : ℕ)
    (rest : List ℕ) :
    (∃ sched : List ℕ,
        allDone
            (raceRun sched
              (raceInit ((k0 + 1) :: (k1 + 1) :: rest))) = true ∧
        (raceRun sched
            (raceInit ((k0 + 1) :: (k1 + 1) :: rest))).counter + 1 =
          ((k0 + 1) :: (k1 + 1) :: rest).sum ∧
        (raceRun sched
            (raceInit ((k0 + 1) :: (k1 + 1) :: rest))).counter <
          ((k0 + 1) :: (k1 + 1) :: rest).sum) ∧
    (∀ (progs : List (List ℕ)) (sched : List ℕ),
        allDoneSync (syncRun sched (syncInit progs)) = true →
        (syncRun sched (syncInit progs)).counter =
          (progs.map List.sum).sum) := by
  constructor
  · obtain ⟨sched, hdone, hsum⟩ := race_lost_update k0 k1 rest
    exact ⟨sched, hdone, hsum, by omega⟩
  · exact sync_exact

/-- Witness for C8 with 2 workers, one increment each, and the guarded
run `[[1], [1]]` under the schedule `[0, 1]`. -/
theorem unguarded_loses_updates_guarded_exact_witness :
    (∃ sched : List ℕ,
        allDone
            (raceRun sched
              (raceInit ((0 + 1) :: (0 + 1) :: ([] : List ℕ)))) =
          true ∧
        (raceRun sched
            (raceInit ((0 + 1) :: (0 + 1) :: ([] : List ℕ)))).counter +
            1 =
          ((0 + 1) :: (0 + 1) :: ([] : List ℕ)).sum ∧
        (raceRun sched
            (raceInit ((0 + 1) :: (0 + 1) :: ([] : List ℕ)))).counter <
          ((0 + 1) :: (0 + 1) :: ([] : List ℕ)).sum) ∧
      allDoneSync (syncRun [0, 1] (syncInit [[1], [1]])) = true ∧
      (syncRun [0, 1] (syncInit [[1], [1]])).counter =
        ([[1], [1]].map List.sum).sum :=
  ⟨(unguarded_loses_updates_guarded_exact 0 0 []).1,
   by decide,
   (unguarded_loses_updates_guarded_exact 0 0 []).2 [[1], [1]] [0, 1]
     (by decide)⟩

end CEE690
